import Mathlib

/-!
Verification of the hunter-sim repository (stage scaling, enemy/boss stat
construction, enrage mechanics, healing/damage bookkeeping, loot accounting,
batch aggregation and build-config loading), shallowly embedded from the
Python sources `hunter-sim/units.py`, `hunter-sim/hunters.py`,
`hunter-sim/gui.py` and `Validator/validate_builds.py`.

Machine reals are modelled by exact rationals; the Python decimal literals
are exact in this embedding.
-/

namespace HunterSim

/-- Function `multi_wasm` of `units.py` — stage scaling multiplier for Borge/Ozzy enemies,
translated line by line: a chain of conditional multiplicative breakpoints
followed by an exponential factor above stage 350. -/
def multi_wasm (stage : ℕ) : ℚ :=
  if stage < 150 then 1 else
    let r : ℚ := 1
    let r := if stage > 149 then r * (1 + ((stage : ℚ) - 149) * 0.006) else r
    let r := if stage > 199 then r * (1 + ((stage : ℚ) - 199) * 0.006) else r
    let r := if stage > 249 then r * (1 + ((stage : ℚ) - 249) * 0.006) else r
    let r := if stage > 299 then r * (1 + ((stage : ℚ) - 299) * 0.006) else r
    let r := if stage > 309 then r * (1 + ((stage : ℚ) - 309) * 0.006) else r
    let r := if stage > 319 then r * (1 + ((stage : ℚ) - 319) * 0.006) else r
    let r := if stage > 329 then r * (1 + ((stage : ℚ) - 329) * 0.006) else r
    let r := if stage > 339 then r * (1 + ((stage : ℚ) - 339) * 0.006) else r
    let r := if stage > 349 then r * (1 + ((stage : ℚ) - 349) * 0.006) else r
    let r := if stage > 359 then r * (1 + ((stage : ℚ) - 359) * 0.006) else r
    let r := if stage > 369 then r * (1 + ((stage : ℚ) - 369) * 0.006) else r
    let r := if stage > 379 then r * (1 + ((stage : ℚ) - 379) * 0.006) else r
    let r := if stage > 389 then r * (1 + ((stage : ℚ) - 389) * 0.006) else r
    let r := if stage > 350 then r * (1.01 : ℚ) ^ (stage - 350) else r
    r

/-- Function `knox_scaling` of `units.py` — Knox-specific stage scaling, translated line
by line; rate 0.007 and exponential factor above stage 400. -/
def knox_scaling (stage : ℕ) : ℚ :=
  if stage < 150 then 1 else
    let r : ℚ := 1
    let r := if stage > 149 then r * (1 + ((stage : ℚ) - 149) * 0.007) else r
    let r := if stage > 199 then r * (1 + ((stage : ℚ) - 199) * 0.007) else r
    let r := if stage > 249 then r * (1 + ((stage : ℚ) - 249) * 0.007) else r
    let r := if stage > 299 then r * (1 + ((stage : ℚ) - 299) * 0.007) else r
    let r := if stage > 349 then r * (1 + ((stage : ℚ) - 349) * 0.007) else r
    let r := if stage > 369 then r * (1 + ((stage : ℚ) - 369) * 0.007) else r
    let r := if stage > 389 then r * (1 + ((stage : ℚ) - 389) * 0.007) else r
    let r := if stage > 409 then r * (1 + ((stage : ℚ) - 409) * 0.007) else r
    let r := if stage > 429 then r * (1 + ((stage : ℚ) - 429) * 0.007) else r
    let r := if stage > 400 then r * (1.01 : ℚ) ^ (stage - 400) else r
    r

/-- One conditional breakpoint factor of the chain in the spec: a threshold `T`
strictly exceeded by the stage contributes `1 + (stage - T) * rate`,
otherwise `1`. -/
def breakFactor (rate : ℚ) (s T : ℕ) : ℚ :=
  if T < s then 1 + ((s : ℚ) - (T : ℚ)) * rate else 1

/-- The chain, as the spec states it, of conditional multiplicative breakpoints over a
threshold list. -/
def chainMult (rate : ℚ) (ts : List ℕ) (s : ℕ) : ℚ :=
  (ts.map (breakFactor rate s)).prod

/-- The exponential term of the spec, activating strictly above its threshold. -/
def expFactor (base : ℚ) (T s : ℕ) : ℚ :=
  if T < s then base ^ (s - T) else 1

/-- Breakpoint thresholds of `multi_wasm`. -/
def multiWasmThresholds : List ℕ :=
  [149, 199, 249, 299, 309, 319, 329, 339, 349, 359, 369, 379, 389]

/-- Breakpoint thresholds of `knox_scaling`. -/
def knoxThresholds : List ℕ :=
  [149, 199, 249, 299, 349, 369, 389, 409, 429]

/-- Modelled from the spec: closed-form statement of the stage multiplier
algorithm — product of conditional breakpoint factors times the exponential
term, and exactly 1 below stage 150. -/
def multiWasmSpec (s : ℕ) : ℚ :=
  if s < 150 then 1 else chainMult 0.006 multiWasmThresholds s * expFactor 1.01 350 s

/-- Modelled from the spec: closed-form statement of the Knox stage
multiplier. -/
def knoxScalingSpec (s : ℕ) : ℚ :=
  if s < 150 then 1 else chainMult 0.007 knoxThresholds s * expFactor 1.01 400 s

lemma ite_mul_right {c : Prop} [Decidable c] (r x : ℚ) :
    (if c then r * x else r) = r * (if c then x else 1) := by
  split <;> simp

lemma multi_wasm_eq_spec (s : ℕ) : multi_wasm s = multiWasmSpec s := by
  unfold multi_wasm multiWasmSpec chainMult breakFactor expFactor multiWasmThresholds
  by_cases h : s < 150
  · simp [h]
  · simp only [if_neg h, List.map_cons, List.map_nil, List.prod_cons, List.prod_nil,
      ite_mul_right, gt_iff_lt]
    push_cast
    ring

lemma knox_scaling_eq_spec (s : ℕ) : knox_scaling s = knoxScalingSpec s := by
  unfold knox_scaling knoxScalingSpec chainMult breakFactor expFactor knoxThresholds
  by_cases h : s < 150
  · simp [h]
  · simp only [if_neg h, List.map_cons, List.map_nil, List.prod_cons, List.prod_nil,
      ite_mul_right, gt_iff_lt]
    push_cast
    ring

lemma breakFactor_pos {rate : ℚ} (hr : 0 ≤ rate) (s T : ℕ) :
    0 < breakFactor rate s T := by
  unfold breakFactor
  split
  · rename_i h
    have hsT : (0 : ℚ) ≤ (s : ℚ) - (T : ℚ) := by
      have := (Nat.cast_le (α := ℚ)).2 (Nat.le_of_lt h)
      linarith
    nlinarith [mul_nonneg hsT hr]
  · norm_num

lemma chainMult_pos {rate : ℚ} (hr : 0 ≤ rate) (ts : List ℕ) (s : ℕ) :
    0 < chainMult rate ts s := by
  unfold chainMult
  apply List.prod_pos
  intro x hx
  rcases List.mem_map.1 hx with ⟨T, _, rfl⟩
  exact breakFactor_pos hr s T

lemma expFactor_pos {base : ℚ} (hb : 0 < base) (T s : ℕ) :
    0 < expFactor base T s := by
  unfold expFactor
  split
  · exact pow_pos hb _
  · norm_num

lemma multi_wasm_pos (s : ℕ) : 0 < multi_wasm s := by
  rw [multi_wasm_eq_spec]
  unfold multiWasmSpec
  split
  · norm_num
  · exact mul_pos (chainMult_pos (by norm_num) _ _) (expFactor_pos (by norm_num) _ _)

lemma knox_scaling_pos (s : ℕ) : 0 < knox_scaling s := by
  rw [knox_scaling_eq_spec]
  unfold knoxScalingSpec
  split
  · norm_num
  · exact mul_pos (chainMult_pos (by norm_num) _ _) (expFactor_pos (by norm_num) _ _)

/-- Claim C1: for every stage `s`, `multi_wasm` and `knox_scaling` equal the
chain of conditional multiplicative breakpoints (each exceeded threshold `T`
contributing `1 + (s - T) * rate` with rate 0.006 resp. 0.007, each delta
taken against its own threshold) times the exponential factor
`1.01 ^ (s - 350)` resp. `1.01 ^ (s - 400)` activating only strictly above
that final threshold; and for every `s < 150` both multipliers are exactly 1. -/
theorem stage_multiplier_breakpoint_chain :
    ∀ s : ℕ, multi_wasm s = multiWasmSpec s ∧ knox_scaling s = knoxScalingSpec s ∧
      (s < 150 → multi_wasm s = 1 ∧ knox_scaling s = 1) := by
  intro s
  refine ⟨multi_wasm_eq_spec s, knox_scaling_eq_spec s, fun h => ?_⟩
  constructor
  · unfold multi_wasm
    simp [h]
  · unfold knox_scaling
    simp [h]

/-- Witness for C1: the hypothesis `s < 150` is satisfiable at `s = 100`,
where both multipliers evaluate to 1. -/
theorem stage_multiplier_breakpoint_chain_witness :
    (100 : ℕ) < 150 ∧ multi_wasm 100 = 1 ∧ knox_scaling 100 = 1 :=
  ⟨by norm_num, (stage_multiplier_breakpoint_chain 100).2.2 (by norm_num)⟩

/-- The three hunter archetypes the enemy/boss stat formulas branch on
(`isinstance` checks in `units.py`). -/
inductive Archetype
  | borge
  | ozzy
  | knox
deriving DecidableEq

/-- Method `Enemy.fetch_stats`, hp formula per archetype
(`units.py` lines 146/163/178). -/
def enemyHp : Archetype → ℕ → ℚ
  | .borge, s => (9 + (s : ℚ) * 4) * (if s > 100 then 2.85 else 1) * multi_wasm s *
      (if s = 300 then 0.9 else 1)
  | .ozzy, s => (11 + (s : ℚ) * 6) * (if s > 100 then 2.9 else 1) * multi_wasm s *
      (if s = 300 then 0.94 else 1)
  | .knox, s => (10 + (s : ℚ) * 5) * (if s > 100 then 2.8 else 1) * knox_scaling s

/-- Method `Enemy.fetch_stats`, power formula per archetype. -/
def enemyPower : Archetype → ℕ → ℚ
  | .borge, s => (2.5 + (s : ℚ) * 0.7) * (if s > 100 then 2.85 else 1) * multi_wasm s *
      (if s = 300 then 0.9 else 1)
  | .ozzy, s => (1.35 + (s : ℚ) * 0.75) * (if s > 100 then 2.7 else 1) * multi_wasm s *
      (if s = 300 then 0.94 else 1)
  | .knox, s => (1.5 + (s : ℚ) * 0.65) * (if s > 100 then 2.6 else 1) * knox_scaling s

/-- Method `Enemy.fetch_stats`, regen formula per archetype. -/
def enemyRegen : Archetype → ℕ → ℚ
  | .borge, s => (if s > 1 then ((s : ℚ) - 1) * 0.08 else 0) *
      (if s > 100 then 1.052 else 1) * multi_wasm s
  | .ozzy, s => (if s > 0 then ((s : ℚ) - 1) * 0.1 else 0) *
      (if s > 100 then 1.25 else 1) * multi_wasm s
  | .knox, s => (if s > 0 then ((s : ℚ) - 1) * 0.09 else 0) *
      (if s > 100 then 1.15 else 1) * knox_scaling s

/-- Method `Enemy.fetch_stats`, nominal (pre-cap) special chance per archetype. -/
def enemySpecialChance : Archetype → ℕ → ℚ
  | .borge, s => 0.0322 + (s : ℚ) * 0.0004
  | .ozzy, s => 0.0994 + (s : ℚ) * 0.0006
  | .knox, s => 0.075 + (s : ℚ) * 0.00055

/-- Method `Enemy.fetch_stats`, nominal (pre-cap) special damage per archetype. -/
def enemySpecialDamage : Archetype → ℕ → ℚ
  | .borge, s => 1.21 + (s : ℚ) * 0.008025
  | .ozzy, s => 1.03 + (s : ℚ) * 0.008
  | .knox, s => 1.15 + (s : ℚ) * 0.0075

/-- Method `Enemy.__create__` stores `min(special_chance, 0.25)`
(patch 2024-01-24 cap in `units.py` line 217). -/
def enemyStoredSpecialChance (a : Archetype) (s : ℕ) : ℚ :=
  min (enemySpecialChance a s) 0.25

/-- Method `Enemy.__create__` stores `min(special_damage, 2.5)`. -/
def enemyStoredSpecialDamage (a : Archetype) (s : ℕ) : ℚ :=
  min (enemySpecialDamage a s) 2.5

/-- Boss HP multiplier constant per archetype (`Boss.fetch_stats`). -/
def bossHpMult : Archetype → ℚ
  | .borge => 90
  | .ozzy => 48
  | .knox => 120

/-- Boss power multiplier constant per archetype. -/
def bossPowerMult : Archetype → ℚ
  | .borge => 3.63
  | .ozzy => 3.25
  | .knox => 4.0

/-- Boss regen multiplier constant per archetype. -/
def bossRegenMult : Archetype → ℚ
  | .borge => 2.5
  | .ozzy => 6
  | .knox => 3

/-- Boss additive special-chance bonus per archetype. -/
def bossSpecialChanceBonus : Archetype → ℚ
  | .borge => 0.08
  | .ozzy => 0.2
  | .knox => 0.06

/-- Boss additive special-damage bonus per archetype. -/
def bossSpecialDamageBonus : Archetype → ℚ
  | .borge => 0.5
  | .ozzy => 0.8
  | .knox => 0.4

/-- Method `Boss.fetch_stats`, hp: the enemy hp times the constant. -/
def bossHp (a : Archetype) (s : ℕ) : ℚ := enemyHp a s * bossHpMult a

/-- Method `Boss.fetch_stats`, power: the enemy power times the constant. -/
def bossPower (a : Archetype) (s : ℕ) : ℚ := enemyPower a s * bossPowerMult a

/-- Method `Boss.fetch_stats`, regen: the enemy regen times the constant. -/
def bossRegen (a : Archetype) (s : ℕ) : ℚ := enemyRegen a s * bossRegenMult a

/-- Method `Boss.fetch_stats`, special chance: `min(enemy + bonus, 0.25)`; the
additive bonus is applied to the raw (unclamped) enemy value. -/
def bossFetchSpecialChance (a : Archetype) (s : ℕ) : ℚ :=
  min (enemySpecialChance a s + bossSpecialChanceBonus a) 0.25

/-- Method `Boss.fetch_stats`, special damage: `min(enemy + bonus, 2.5)`. -/
def bossFetchSpecialDamage (a : Archetype) (s : ℕ) : ℚ :=
  min (enemySpecialDamage a s + bossSpecialDamageBonus a) 2.5

/-- Value actually stored on a freshly constructed boss: the inherited
`Enemy.__create__` clamps the fetched value once more with the same cap. -/
def bossStoredSpecialChance (a : Archetype) (s : ℕ) : ℚ :=
  min (bossFetchSpecialChance a s) 0.25

/-- Value actually stored on a freshly constructed boss (special damage). -/
def bossStoredSpecialDamage (a : Archetype) (s : ℕ) : ℚ :=
  min (bossFetchSpecialDamage a s) 2.5

lemma clamp_add_clamp (x b c : ℚ) (hb : 0 ≤ b) :
    min (min x c + b) c = min (x + b) c := by
  rcases le_total x c with h | h
  · rw [min_eq_left h]
  · rw [min_eq_right h, min_eq_right (by linarith), min_eq_right (by linarith)]

/-- Claim C2: stored crit (special) chance and crit damage of freshly constructed
enemies and bosses are capped at 0.25 and 2.5; the caps are applied after
all additive bonuses (the boss adds its bonus to the unclamped enemy value
and clamps once, the second inherited clamp being idempotent); whenever the
nominal value exceeds the cap, the stored value equals the cap exactly; and
clamping the enemy value first, adding the boss bonus and clamping again
yields the same result as clamping once after the addition. -/
theorem special_caps_after_additive_bonuses :
    ∀ (a : Archetype) (s : ℕ),
      enemyStoredSpecialChance a s ≤ 0.25 ∧ enemyStoredSpecialDamage a s ≤ 2.5 ∧
      bossStoredSpecialChance a s ≤ 0.25 ∧ bossStoredSpecialDamage a s ≤ 2.5 ∧
      bossStoredSpecialChance a s = min (enemySpecialChance a s + bossSpecialChanceBonus a) 0.25 ∧
      bossStoredSpecialDamage a s = min (enemySpecialDamage a s + bossSpecialDamageBonus a) 2.5 ∧
      (0.25 < enemySpecialChance a s → enemyStoredSpecialChance a s = 0.25) ∧
      (2.5 < enemySpecialDamage a s → enemyStoredSpecialDamage a s = 2.5) ∧
      (0.25 < enemySpecialChance a s + bossSpecialChanceBonus a →
        bossStoredSpecialChance a s = 0.25) ∧
      (2.5 < enemySpecialDamage a s + bossSpecialDamageBonus a →
        bossStoredSpecialDamage a s = 2.5) ∧
      min (min (enemySpecialChance a s) 0.25 + bossSpecialChanceBonus a) 0.25 =
        min (enemySpecialChance a s + bossSpecialChanceBonus a) 0.25 ∧
      min (min (enemySpecialDamage a s) 2.5 + bossSpecialDamageBonus a) 2.5 =
        min (enemySpecialDamage a s + bossSpecialDamageBonus a) 2.5 := by
  intro a s
  have hscb : 0 ≤ bossSpecialChanceBonus a := by cases a <;> norm_num [bossSpecialChanceBonus]
  have hsdb : 0 ≤ bossSpecialDamageBonus a := by cases a <;> norm_num [bossSpecialDamageBonus]
  refine ⟨min_le_right _ _, min_le_right _ _, min_le_right _ _, min_le_right _ _, ?_, ?_,
    fun h => ?_, fun h => ?_, fun h => ?_, fun h => ?_, clamp_add_clamp _ _ _ hscb,
    clamp_add_clamp _ _ _ hsdb⟩
  · unfold bossStoredSpecialChance bossFetchSpecialChance
    rw [min_assoc, min_self]
  · unfold bossStoredSpecialDamage bossFetchSpecialDamage
    rw [min_assoc, min_self]
  · exact min_eq_right (le_of_lt h) ▸ rfl
  · exact min_eq_right (le_of_lt h) ▸ rfl
  · unfold bossStoredSpecialChance bossFetchSpecialChance
    rw [min_eq_right (le_of_lt h), min_self]
  · unfold bossStoredSpecialDamage bossFetchSpecialDamage
    rw [min_eq_right (le_of_lt h), min_self]

/-- Witness for C2: at Borge stage 600 the nominal special chance (0.2722)
and special damage (6.025) both exceed their caps, and the stored values are
exactly 0.25 and 2.5. -/
theorem special_caps_after_additive_bonuses_witness :
    0.25 < enemySpecialChance .borge 600 ∧ 2.5 < enemySpecialDamage .borge 600 ∧
      enemyStoredSpecialChance .borge 600 = 0.25 ∧
      enemyStoredSpecialDamage .borge 600 = 2.5 ∧
      bossStoredSpecialChance .borge 600 = 0.25 ∧
      bossStoredSpecialDamage .borge 600 = 2.5 := by
  have h := special_caps_after_additive_bonuses .borge 600
  refine ⟨by norm_num [enemySpecialChance], by norm_num [enemySpecialDamage],
    h.2.2.2.2.2.2.1 (by norm_num [enemySpecialChance]),
    h.2.2.2.2.2.2.2.1 (by norm_num [enemySpecialDamage]),
    h.2.2.2.2.2.2.2.2.1 (by norm_num [enemySpecialChance, bossSpecialChanceBonus]),
    h.2.2.2.2.2.2.2.2.2.1 (by norm_num [enemySpecialDamage, bossSpecialDamageBonus])⟩

lemma enemyHp_pos (a : Archetype) (s : ℕ) : 0 < enemyHp a s := by
  have hmw := multi_wasm_pos s
  have hks := knox_scaling_pos s
  cases a <;> unfold enemyHp
  · refine mul_pos (mul_pos (mul_pos ?_ ?_) hmw) ?_ <;> positivity
  · refine mul_pos (mul_pos (mul_pos ?_ ?_) hmw) ?_ <;> positivity
  · refine mul_pos (mul_pos ?_ ?_) hks <;> positivity

lemma enemyPower_pos (a : Archetype) (s : ℕ) : 0 < enemyPower a s := by
  have hmw := multi_wasm_pos s
  have hks := knox_scaling_pos s
  cases a <;> unfold enemyPower
  · refine mul_pos (mul_pos (mul_pos ?_ ?_) hmw) ?_ <;> positivity
  · refine mul_pos (mul_pos (mul_pos ?_ ?_) hmw) ?_ <;> positivity
  · refine mul_pos (mul_pos ?_ ?_) hks <;> positivity

/-- Claim C3: at every stage the boss stats are the enemy stats at the same stage
times a fixed archetype constant — HP ×90/×48/×120, power ×3.63/×3.25/×4.0,
regen ×2.5/×6/×3 — and since enemy HP and power are strictly positive at
every stage, the quotients boss/enemy equal those constants exactly,
independent of the stage. -/
theorem boss_stats_fixed_enemy_multiples :
    ∀ (a : Archetype) (s : ℕ),
      bossHp a s = bossHpMult a * enemyHp a s ∧
      bossPower a s = bossPowerMult a * enemyPower a s ∧
      bossRegen a s = bossRegenMult a * enemyRegen a s ∧
      0 < enemyHp a s ∧ 0 < enemyPower a s ∧
      bossHp a s / enemyHp a s = bossHpMult a ∧
      bossPower a s / enemyPower a s = bossPowerMult a := by
  intro a s
  have hhp := enemyHp_pos a s
  have hpw := enemyPower_pos a s
  refine ⟨mul_comm _ _, mul_comm _ _, mul_comm _ _, hhp, hpw, ?_, ?_⟩
  · unfold bossHp
    rw [mul_comm, mul_div_assoc, div_self (ne_of_gt hhp), mul_one]
  · unfold bossPower
    rw [mul_comm, mul_div_assoc, div_self (ne_of_gt hpw), mul_one]

/-- The boss fields touched by the enrage mechanic (`units.py::Boss`):
`enrage_stacks`, `power`, the `base_power` snapshot taken at construction,
`special_chance`, and the `max_enrage` flag. -/
structure BossEnrage where
  enrage_stacks : ℕ
  power : ℚ
  base_power : ℚ
  special_chance : ℚ
  max_enrage : Bool
deriving DecidableEq

/-- The boss operations of a run that touch the enrage fields:
`Boss.attack` (primary), and `Boss.attack_special` with the gothmorgor
(+1 stack) or exoscarab (+5 stacks) secondary. -/
inductive BossOp
  | attack
  | specialGoth
  | specialExo
deriving DecidableEq

/-- Method `Boss.attack`: increments the stack counter, then — only here — checks
`enrage_stacks >= 200 and not max_enrage` and performs the Max-Enrage
transition (power := base_power * 3, special_chance := 1).
`Boss.attack_special` (both branches) only adds stacks; it performs no
threshold check. -/
def bossStep : BossOp → BossEnrage → BossEnrage
  | .attack, b =>
      let b1 := { b with enrage_stacks := b.enrage_stacks + 1 }
      if 200 ≤ b1.enrage_stacks ∧ b1.max_enrage = false then
        { b1 with max_enrage := true, power := b1.base_power * 3, special_chance := 1 }
      else b1
  | .specialGoth, b => { b with enrage_stacks := b.enrage_stacks + 1 }
  | .specialExo, b => { b with enrage_stacks := b.enrage_stacks + 5 }

/-- A sequence of enrage-relevant boss operations within one run. -/
def bossRun (ops : List BossOp) (b : BossEnrage) : BossEnrage :=
  ops.foldl (fun s op => bossStep op s) b

lemma bossStep_stacks_lt (op : BossOp) (b : BossEnrage) :
    b.enrage_stacks < (bossStep op b).enrage_stacks := by
  cases op <;> simp only [bossStep]
  · split <;> simp
  · simp
  · simp

lemma bossStep_max_enrage_frozen (op : BossOp) (b : BossEnrage)
    (h : b.max_enrage = true) :
    (bossStep op b).max_enrage = true ∧ (bossStep op b).power = b.power ∧
      (bossStep op b).special_chance = b.special_chance ∧
      (bossStep op b).base_power = b.base_power := by
  cases op
  · simp only [bossStep]
    rw [if_neg (by simp [h])]
    exact ⟨h, rfl, rfl, rfl⟩
  · exact ⟨h, rfl, rfl, rfl⟩
  · exact ⟨h, rfl, rfl, rfl⟩

lemma bossRun_max_enrage_frozen (ops : List BossOp) (b : BossEnrage)
    (h : b.max_enrage = true) :
    (bossRun ops b).max_enrage = true ∧ (bossRun ops b).power = b.power ∧
      (bossRun ops b).special_chance = b.special_chance ∧
      (bossRun ops b).base_power = b.base_power := by
  induction ops generalizing b with
  | nil => exact ⟨h, rfl, rfl, rfl⟩
  | cons op rest ih =>
      have hs := bossStep_max_enrage_frozen op b h
      have hr := ih (bossStep op b) hs.1
      exact ⟨hr.1, hr.2.1.trans hs.2.1, hr.2.2.1.trans hs.2.2.1, hr.2.2.2.trans hs.2.2.2⟩

lemma bossRun_stacks_mono (ops : List BossOp) (b : BossEnrage) :
    b.enrage_stacks ≤ (bossRun ops b).enrage_stacks := by
  induction ops generalizing b with
  | nil => exact le_refl _
  | cons op rest ih =>
      exact le_trans (le_of_lt (bossStep_stacks_lt op b)) (ih (bossStep op b))

/-- Claim C4 counterexample: the claim says the Max-Enrage transition fires
whenever the stack count crosses 200, including on secondary-attack stacks;
but an exoscarab secondary attack at 199 stacks pushes the counter to 204
without entering Max-Enrage — power and crit chance are unchanged and the
flag stays false until the next primary attack. -/
theorem enrage_secondary_no_immediate_transition :
    200 ≤ (bossStep .specialExo ⟨199, 10, 10, 1/10, false⟩).enrage_stacks ∧
      (bossStep .specialExo ⟨199, 10, 10, 1/10, false⟩).max_enrage = false ∧
      (bossStep .specialExo ⟨199, 10, 10, 1/10, false⟩).power ≠
        3 * (bossStep .specialExo ⟨199, 10, 10, 1/10, false⟩).base_power ∧
      (bossStep .specialExo ⟨199, 10, 10, 1/10, false⟩).special_chance ≠ 1 := by
  refine ⟨by norm_num [bossStep], rfl, by norm_num [bossStep], by norm_num [bossStep]⟩

/-- Claim C4 (amended): within a run the enrage-stack counter is monotonically
non-decreasing across all operation sequences and strictly increases on
every boss attack (primary +1, gothmorgor secondary +1, exoscarab secondary
+5); a primary attack executed with at least 199 prior stacks (so the
counter reaches 200) performs the Max-Enrage transition — power becomes
exactly 3 × base power and crit chance becomes 1 — and the transition is
one-way: from any Max-Enraged state, no reachable later state of the run
lowers power, crit chance, or the flag. Stacks gained from secondary attacks
count toward the threshold, but the threshold check itself runs only in the
primary attack. -/
theorem enrage_monotone_one_way_transition :
    (∀ (op : BossOp) (b : BossEnrage), b.enrage_stacks < (bossStep op b).enrage_stacks) ∧
    (∀ (ops : List BossOp) (b : BossEnrage),
      b.enrage_stacks ≤ (bossRun ops b).enrage_stacks) ∧
    (∀ b : BossEnrage, b.max_enrage = false → 199 ≤ b.enrage_stacks →
      (bossStep .attack b).max_enrage = true ∧
      (bossStep .attack b).power = b.base_power * 3 ∧
      (bossStep .attack b).special_chance = 1) ∧
    (∀ (ops : List BossOp) (b : BossEnrage), b.max_enrage = true →
      (bossRun ops b).max_enrage = true ∧ (bossRun ops b).power = b.power ∧
      (bossRun ops b).special_chance = b.special_chance) := by
  refine ⟨bossStep_stacks_lt, bossRun_stacks_mono, ?_, ?_⟩
  · intro b hb hs
    simp only [bossStep]
    rw [if_pos ⟨by show 200 ≤ b.enrage_stacks + 1; omega, by simpa using hb⟩]
    exact ⟨rfl, rfl, rfl⟩
  · intro ops b hb
    have h := bossRun_max_enrage_frozen ops b hb
    exact ⟨h.1, h.2.1, h.2.2.1⟩

/-- Witness for C4 (amended): a non-enraged boss at 199 stacks enters
Max-Enrage on its next primary attack, and a further exoscarab secondary
changes neither power nor crit chance. -/
theorem enrage_monotone_one_way_transition_witness :
    (bossStep .attack ⟨199, 10, 10, 1/10, false⟩).max_enrage = true ∧
      (bossStep .attack ⟨199, 10, 10, 1/10, false⟩).power = 30 ∧
      (bossStep .attack ⟨199, 10, 10, 1/10, false⟩).special_chance = 1 ∧
      (bossRun [.specialExo] (bossStep .attack ⟨199, 10, 10, 1/10, false⟩)).power = 30 := by
  have h := enrage_monotone_one_way_transition
  have h3 := h.2.2.1 ⟨199, 10, 10, 1/10, false⟩ rfl (by norm_num)
  have h4 := h.2.2.2 [.specialExo] (bossStep .attack ⟨199, 10, 10, 1/10, false⟩) h3.1
  refine ⟨h3.1, by rw [h3.2.1]; norm_num, h3.2.2, by rw [h4.2.1, h3.2.1]; norm_num⟩

/-- A simulation queue entry `(time, tie-break priority, unit kind)` as
pushed by `heapq.heappush` in `units.py`. The heap is modelled by the list
of its entries: the claim under scrutiny concerns which events are pending,
not the internal array order of the heap. -/
abbrev SimEvent : Type := ℚ × ℕ × String

/-- The filter predicate of `Enemy.stun`: the unit kind equals `enemy`. -/
def isEnemyEvent (e : SimEvent) : Bool := e.2.2 == "enemy"

/-- Content effect of `heapq.heappush`: the pushed entry joins the pending
set. -/
def hpushModel (q : List SimEvent) (e : SimEvent) : List SimEvent := q ++ [e]

/-- Method `Enemy.stun(duration)` (`units.py` lines 308-317): takes the first
pending event whose kind is `enemy` (an `IndexError` — `none` — if there
is none), removes it with `list.remove` (first occurrence), and re-pushes it
with its time shifted by `duration`, keeping its tie-break priority and
kind. -/
def stun (q : List SimEvent) (duration : ℚ) : Option (List SimEvent) :=
  match q.filter isEnemyEvent with
  | [] => none
  | qe :: _ => some (hpushModel (q.erase qe) (qe.1 + duration, qe.2.1, qe.2.2))

lemma count_erase_of_ne {e x : SimEvent} (q : List SimEvent) (h : x ≠ e) :
    (q.erase e).count x = q.count x := by
  induction q with
  | nil => rfl
  | cons a rest ih =>
      by_cases hae : a = e
      · subst hae
        rw [List.erase_cons_head, List.count_cons, if_neg (by simpa using h.symm)]
        simp
      · rw [List.erase_cons_tail (by simpa using hae), List.count_cons, List.count_cons, ih]

/-- Claim C5: if the queue holds exactly one pending `enemy` attack event, at
time `t` with tie-break priority `p`, then `stun` succeeds and the resulting
queue is the old queue with that event removed and a single new
`(t + duration, p, enemy)` event inserted; the multiplicity of every event
that is not that removed entry and not the new entry is unchanged, so the
stun delays the next enemy attack by exactly `duration` rather than
cancelling it. -/
theorem stun_delays_unique_enemy_attack :
    ∀ (q : List SimEvent) (d t : ℚ) (p : ℕ),
      q.filter isEnemyEvent = [(t, p, "enemy")] →
      stun q d = some (q.erase (t, p, "enemy") ++ [(t + d, p, "enemy")]) ∧
      ∀ x : SimEvent, x ≠ (t, p, "enemy") → x ≠ (t + d, p, "enemy") →
        (q.erase (t, p, "enemy") ++ [(t + d, p, "enemy")]).count x = q.count x := by
  intro q d t p h
  constructor
  · unfold stun
    rw [h]
    rfl
  · intro x hx1 hx2
    rw [List.count_append, count_erase_of_ne q hx1]
    simp [List.count_cons, hx2]

/-- Witness for C5: a concrete queue with one pending enemy attack at time 5
and a hunter attack at time 3; stunning for 2 seconds moves only the enemy
attack, to time 7. -/
theorem stun_delays_unique_enemy_attack_witness :
    stun [((5 : ℚ), 2, "enemy"), ((3 : ℚ), 1, "hunter")] 2 =
        some [((3 : ℚ), 1, "hunter"), ((7 : ℚ), 2, "enemy")] ∧
      ([((3 : ℚ), 1, "hunter"), ((7 : ℚ), 2, "enemy")] : List SimEvent).count
          ((3 : ℚ), 1, "hunter") =
        ([((5 : ℚ), 2, "enemy"), ((3 : ℚ), 1, "hunter")] : List SimEvent).count
          ((3 : ℚ), 1, "hunter") := by
  have h := stun_delays_unique_enemy_attack
    [((5 : ℚ), 2, "enemy"), ((3 : ℚ), 1, "hunter")] 2 5 2 (by rfl)
  have h1 := h.1
  have h2 := h.2 ((3 : ℚ), 1, "hunter") (by norm_num) (by norm_num)
  constructor
  · rw [h1]
    norm_num [List.erase_cons]
  · have heq : ([((5 : ℚ), 2, "enemy"), ((3 : ℚ), 1, "hunter")] : List SimEvent).erase
        ((5 : ℚ), 2, "enemy") ++ [((5 : ℚ) + 2, 2, "enemy")] =
        ([((3 : ℚ), 1, "hunter"), ((7 : ℚ), 2, "enemy")] : List SimEvent) := by
      norm_num [List.erase_cons]
    rw [← heq]
    exact h2

/-- A Python dict section of a build config: association list from key to an
integer level. -/
def Section : Type := List (String × Int)

/-- Python `d.get(k)` — `None` when the key is missing. -/
def dictGet (m : Section) (k : String) : Option Int :=
  (m.find? (fun kv => kv.1 == k)).map (fun kv => kv.2)

/-- Python `d[k]`: the value, or a `KeyError` when the key is missing. -/
def dictIndex (m : Section) (k : String) : Except String Int :=
  match dictGet m k with
  | some v => Except.ok v
  | none => Except.error ("KeyError: " ++ k)

/-- Python `d.get(k, default)`. -/
def dictGetD (m : Section) (k : String) (d : Int) : Int :=
  (dictGet m k).getD d

/-- A build config dict as `Hunter.load_build` consumes it: each top-level
section may be absent (`config_dict.get(section, {})` then yields `{}`), and
in the flat web-app format `level` sits at top level. -/
structure ConfigDict where
  meta : Option Section
  flatLevel : Option Int
  stats : Option Section
  talents : Option Section
  attributes : Option Section
  inscryptions : Option Section
  relics : Option Section
  gems : Option Section
  gadgets : Option Section

/-- Method `Hunter.load_build` meta handling followed by `self.meta["level"]` in
`Borge.__create__`: a present `meta` section is indexed directly (KeyError
when `level` is absent), while the flat format defaults the level to 0. -/
def metaLevel (cfg : ConfigDict) : Except String Int :=
  match cfg.meta with
  | some m => dictIndex m "level"
  | none => Except.ok (cfg.flatLevel.getD 0)

/-- Method `Borge.__create__` max-hp computation (`hunters.py` lines 589-614) on
top of `Hunter.load_build`: sections default to `{}` when absent and the
gadget levels use `.get(key, 0)`, but every stat, inscryption, attribute,
relic and gem lookup is a direct `d[k]` index that raises `KeyError` on a
missing key. `hp // 5` is Python floor division. -/
def borgeMaxHp (cfg : ConfigDict) : Except String ℚ := do
  let stats := cfg.stats.getD []
  let inscr := cfg.inscryptions.getD []
  let attrs := cfg.attributes.getD []
  let relics := cfg.relics.getD []
  let gems := cfg.gems.getD []
  let gadgets := cfg.gadgets.getD []
  let wrench := dictGetD gadgets "wrench_of_gore" 0
  let zap := dictGetD gadgets "zaptron_533" 0
  let anchor := dictGetD gadgets "anchor_of_ages" 0
  let gadgetHpMult : ℚ :=
    (1 + (wrench : ℚ) * 0.01) * (1 + (zap : ℚ) * 0.01) * (1 + (anchor : ℚ) * 0.01)
  let hp ← dictIndex stats "hp"
  let i3 ← dictIndex inscr "i3"
  let i27 ← dictIndex inscr "i27"
  let ares ← dictIndex attrs "soul_of_ares"
  let i60 ← dictIndex inscr "i60"
  let dod ← dictIndex relics "disk_of_dawn"
  let level ← metaLevel cfg
  let cr3 ← dictIndex gems "creation_node_#3"
  let cr2 ← dictIndex gems "creation_node_#2"
  let cr1 ← dictIndex gems "creation_node_#1"
  pure ((43 + (hp : ℚ) * (2.50 + 0.01 * ((Int.fdiv hp 5 : Int) : ℚ)) + (i3 : ℚ) * 6 +
      (i27 : ℚ) * 24) *
    (1 + (ares : ℚ) * 0.01) * (1 + (i60 : ℚ) * 0.03) * (1 + (dod : ℚ) * 0.03) *
    (1 + (0.015 * ((level : ℚ) - 39)) * (cr3 : ℚ)) * (1 + 0.02 * (cr2 : ℚ)) *
    (1 + 0.2 * (cr1 : ℚ)) * gadgetHpMult)

lemma except_bind_ok {α β ε : Type} (a : α) (f : α → Except ε β) :
    (Except.ok a >>= f : Except ε β) = f a := rfl

/-- A fully-populated companion config for the C6 failing input: every
section present, every key that `borgeMaxHp` touches set to 0 — except that
`stats` omits `hp`. -/
def cfgStatsMissingHp : ConfigDict :=
  { meta := some [("level", 0)]
    flatLevel := none
    stats := some []
    talents := some []
    attributes := some [("soul_of_ares", 0)]
    inscryptions := some [("i3", 0), ("i27", 0), ("i60", 0)]
    relics := some [("disk_of_dawn", 0)]
    gems := some [("creation_node_#3", 0), ("creation_node_#2", 0), ("creation_node_#1", 0)]
    gadgets := some [] }

/-- The same config with the `hp` key set to 0 in `stats`. -/
def cfgStatsHpZero : ConfigDict :=
  { cfgStatsMissingHp with stats := some [("hp", 0)] }

/-- Claim C6: the claim (construction tolerates a missing `hp` stat key and
treats it as level 0) is contradicted by the code: `Borge.__create__`
indexes `self.base_stats["hp"]` directly, so a config whose `stats` section
omits `hp` raises `KeyError: hp` during stat computation, while the same
config with the `hp` key set to 0 succeeds with max HP 43. The spec (and the
`load_build` comment "allow missing keys with defaults") state the intended
behaviour; the direct indexing is the slip. -/
theorem borge_missing_hp_key_raises :
    borgeMaxHp cfgStatsMissingHp = Except.error "KeyError: hp" ∧
      borgeMaxHp cfgStatsHpZero = Except.ok 43 := by
  constructor
  · rfl
  · simp [borgeMaxHp, cfgStatsHpZero, cfgStatsMissingHp, metaLevel, dictIndex,
      dictGet, dictGetD, List.find?, except_bind_ok]

/-- The per-run result fields read by `simulate_python`
(`Validator/validate_builds.py`) and `_aggregate_results` (`gui.py`). -/
structure RunResult where
  final_stage : ℚ
  kills : ℚ
  elapsed_time : ℚ
  damage : ℚ
  loot_common : ℚ
  loot_uncommon : ℚ
  loot_rare : ℚ
  total_xp : ℚ
deriving DecidableEq

/-- Aggregate output of `simulate_python` (`SimData`). -/
structure SimData where
  avg_stage : ℚ
  max_stage : ℚ
  min_stage : ℚ
  avg_kills : ℚ
  avg_time : ℚ
  avg_damage : ℚ
  avg_loot_common : ℚ
  avg_loot_uncommon : ℚ
  avg_loot_rare : ℚ
  avg_xp : ℚ
deriving DecidableEq

/-- The sequential run loop: each `sim.run()` either yields a `RunResult`
or raises. The loop collects results in order; the first exception
propagates out of the loop. -/
def collectRuns : List (Except String RunResult) → Except String (List RunResult)
  | [] => Except.ok []
  | Except.error e :: _ => Except.error e
  | Except.ok r :: rest => (collectRuns rest).map (fun rs => r :: rs)

/-- Python `sum(xs) / len(xs)` over the collected runs. -/
def meanQ (xs : List ℚ) : ℚ := xs.sum / (xs.length : ℚ)

/-- Aggregation of a non-empty list of successful runs into `SimData`,
exactly the means / max / min taken in `simulate_python`. -/
def aggregateSimData (r : RunResult) (rest : List RunResult) : SimData :=
  { avg_stage := meanQ ((r :: rest).map RunResult.final_stage)
    max_stage := (rest.map RunResult.final_stage).foldl max r.final_stage
    min_stage := (rest.map RunResult.final_stage).foldl min r.final_stage
    avg_kills := meanQ ((r :: rest).map RunResult.kills)
    avg_time := meanQ ((r :: rest).map RunResult.elapsed_time)
    avg_damage := meanQ ((r :: rest).map RunResult.damage)
    avg_loot_common := meanQ ((r :: rest).map RunResult.loot_common)
    avg_loot_uncommon := meanQ ((r :: rest).map RunResult.loot_uncommon)
    avg_loot_rare := meanQ ((r :: rest).map RunResult.loot_rare)
    avg_xp := meanQ ((r :: rest).map RunResult.total_xp) }

/-- Function `simulate_python(config, num_sims)` (`validate_builds.py` lines
341-384): the entire run loop and the aggregation sit inside one
`try/except`, so the first exception of any single run (and the
`ZeroDivisionError` of the empty batch) makes the whole call return `None`;
only when every run succeeds does it return the aggregated `SimData`. -/
def simulate_python (runs : List (Except String RunResult)) : Option SimData :=
  match collectRuns runs with
  | Except.error _ => none
  | Except.ok [] => none
  | Except.ok (r :: rest) => some (aggregateSimData r rest)

/-- Aggregate output of `_aggregate_results` in `gui.py` (the fields modelled
here); it computes plain means with no notion of failed runs — `BuildResult`
has no failure counter at all. -/
structure BuildResult where
  avg_final_stage : ℚ
  highest_stage : ℚ
  lowest_stage : ℚ
  avg_kills : ℚ
  avg_elapsed_time : ℚ
  avg_damage : ℚ
deriving DecidableEq

/-- Method `_aggregate_results` of `gui.py` on a non-empty results list. -/
def aggregate_results (r : RunResult) (rest : List RunResult) : BuildResult :=
  { avg_final_stage := meanQ ((r :: rest).map RunResult.final_stage)
    highest_stage := (rest.map RunResult.final_stage).foldl max r.final_stage
    lowest_stage := (rest.map RunResult.final_stage).foldl min r.final_stage
    avg_kills := meanQ ((r :: rest).map RunResult.kills)
    avg_elapsed_time := meanQ ((r :: rest).map RunResult.elapsed_time)
    avg_damage := meanQ ((r :: rest).map RunResult.damage) }

/-- Method `_simulate_build_sequential` of `gui.py`: the run loop has no per-run
exception handler, so a raising run propagates its exception; an empty
results list returns `None`; otherwise `_aggregate_results` is called on
all results. -/
def simulate_build_sequential (runs : List (Except String RunResult)) :
    Except String (Option BuildResult) := do
  let rs ← collectRuns runs
  match rs with
  | [] => pure none
  | r :: rest => pure (some (aggregate_results r rest))

/-- A concrete successful run for the C7 counterexample. -/
def okRun : RunResult := ⟨1, 1, 1, 1, 1, 1, 1, 1⟩

/-- Claim C7 counterexample: a 2-run batch whose second run raises. The claim
says the failing run is excluded and aggregate statistics are still
returned from the remaining successful run (with a failure count), but
`simulate_python` returns `None` for the whole batch and the sequential GUI
loop propagates the exception — no partial statistics exist. -/
theorem single_failure_aborts_batch :
    (Except.ok okRun) ∈ [Except.ok okRun, Except.error "boom"] ∧
      simulate_python [Except.ok okRun, Except.error "boom"] = none ∧
      simulate_build_sequential [Except.ok okRun, Except.error "boom"] =
        Except.error "boom" := by
  refine ⟨List.mem_cons_self _ _, rfl, rfl⟩

lemma collectRuns_error_of_mem {runs : List (Except String RunResult)} {e : String}
    (h : Except.error e ∈ runs) : ∃ e2, collectRuns runs = Except.error e2 := by
  induction runs with
  | nil => cases h
  | cons x rest ih =>
      cases x with
      | error e1 => exact ⟨e1, rfl⟩
      | ok r =>
          rcases List.mem_cons.1 h with h1 | h1
          · cases h1
          · rcases ih h1 with ⟨e2, he2⟩
            exact ⟨e2, by simp [collectRuns, he2, Except.map]⟩

lemma collectRuns_all_ok {runs : List (Except String RunResult)}
    (h : ∀ x ∈ runs, ∃ r, x = Except.ok r) :
    ∃ rs, collectRuns runs = Except.ok rs ∧ runs.length = rs.length := by
  induction runs with
  | nil => exact ⟨[], rfl, rfl⟩
  | cons x rest ih =>
      rcases h x (List.mem_cons_self _ _) with ⟨r, rfl⟩
      rcases ih (fun y hy => h y (List.mem_cons_of_mem _ hy)) with ⟨rs, hrs, hlen⟩
      exact ⟨r :: rs, by simp [collectRuns, hrs, Except.map], by simp [hlen]⟩

/-- Claim C7 (amended): a single raising run aborts the statistics of the whole batch
instead of being excluded: `simulate_python` catches the exception only
around the entire loop and returns `None` for the batch (no partial means,
no failure counter — `SimData` has no such field), and the sequential GUI
loop propagates the exception out of `_simulate_build_sequential`;
aggregate statistics over all runs are produced exactly when every run
succeeds (`None` also signalling the empty batch). -/
theorem batch_statistics_iff_all_runs_succeed :
    ∀ runs : List (Except String RunResult),
      ((∃ e, Except.error e ∈ runs) →
        simulate_python runs = none ∧
        ∃ e2, simulate_build_sequential runs = Except.error e2) ∧
      (runs ≠ [] → (∀ x ∈ runs, ∃ r, x = Except.ok r) →
        ∃ d, simulate_python runs = some d) := by
  intro runs
  constructor
  · rintro ⟨e, he⟩
    rcases collectRuns_error_of_mem he with ⟨e2, he2⟩
    refine ⟨by simp [simulate_python, he2], e2, ?_⟩
    simp only [simulate_build_sequential, he2]
    rfl
  · intro hne hok
    rcases collectRuns_all_ok hok with ⟨rs, hrs, hlen⟩
    cases rs with
    | nil =>
        exfalso
        apply hne
        cases runs with
        | nil => rfl
        | cons a b => simp at hlen
    | cons r rest => exact ⟨aggregateSimData r rest, by simp [simulate_python, hrs]⟩

/-- Witness for C7 (amended): at the concrete 2-run batch with one failure
the batch yields no statistics; at the all-successful 1-run batch it yields
aggregated statistics. -/
theorem batch_statistics_iff_all_runs_succeed_witness :
    simulate_python [Except.ok okRun, Except.error "boom"] = none ∧
      ∃ d, simulate_python [Except.ok okRun] = some d := by
  have h1 := (batch_statistics_iff_all_runs_succeed
    [Except.ok okRun, Except.error "boom"]).1 ⟨"boom", by simp⟩
  have h2 := (batch_statistics_iff_all_runs_succeed [Except.ok okRun]).2
    (by simp) (by simp)
  exact ⟨h1.1, h2⟩

/-- Enemy fields touched by `Enemy.receive_damage` / `Enemy.heal_hp`
(`units.py` lines 270-296). -/
structure EnemyCombat where
  hp : ℚ
  max_hp : ℚ
  damage_reduction : ℚ
deriving DecidableEq

/-- Method `Enemy.receive_damage`: on an evade (the `random() < evade_chance` draw,
passed in as `evaded`) nothing changes; otherwise
`hp -= damage * (1 - damage_reduction)`. `on_death` removes queue events and
counts the kill but never writes `hp` back. -/
def enemyReceiveDamage (e : EnemyCombat) (damage : ℚ) (evaded : Bool) : EnemyCombat :=
  if evaded then e
  else { e with hp := e.hp - damage * (1 - e.damage_reduction) }

/-- Method `Enemy.heal_hp`: `effective_heal = min(value, missing_hp)` with
`missing_hp = max_hp - hp`, then `hp += effective_heal`. -/
def enemyHealHp (e : EnemyCombat) (value : ℚ) : EnemyCombat :=
  { e with hp := e.hp + min value (e.max_hp - e.hp) }

/-- Hunter fields touched by `Hunter.receive_damage` and `Hunter.on_death`
(`hunters.py` lines 220-239 and 317-327). -/
structure HunterCombat where
  hp : ℚ
  max_hp : ℚ
  damage_reduction : ℚ
  times_revived : ℕ
  death_is_my_companion : ℕ
  total_taken : ℚ
  total_mitigated : ℚ
  total_attacks_suffered : ℕ
  total_evades : ℕ
deriving DecidableEq

/-- Method `Hunter.receive_damage`: an evade only counts; otherwise the mitigated
damage is subtracted from `hp` and tallied, and if the hunter is then dead
(`hp <= 0`), `on_death` revives to `0.8 * max_hp` when a
`death_is_my_companion` charge is left — and otherwise leaves `hp` as it is
(possibly negative). -/
def hunterReceiveDamage (h : HunterCombat) (damage : ℚ) (evaded : Bool) : HunterCombat :=
  if evaded then { h with total_evades := h.total_evades + 1 }
  else
    let mitigated := damage * (1 - h.damage_reduction)
    let h1 := { h with
                hp := h.hp - mitigated
                total_taken := h.total_taken + mitigated
                total_mitigated := h.total_mitigated + (damage - mitigated)
                total_attacks_suffered := h.total_attacks_suffered + 1 }
    if h1.hp ≤ 0 then
      if h1.times_revived < h1.death_is_my_companion then
        { h1 with hp := h1.max_hp * 0.8, times_revived := h1.times_revived + 1 }
      else h1
    else h1

/-- Hunter fields touched by `Hunter.heal_hp` (`hunters.py` lines 241-262). -/
structure HunterHeal where
  hp : ℚ
  max_hp : ℚ
  total_regen : ℚ
  total_lifesteal : ℚ
  total_loth : ℚ
  total_potion : ℚ
deriving DecidableEq

/-- Method `Hunter.heal_hp`: clamps the heal to the missing hp, applies it, and
tallies it by source; an unknown source raises `ValueError`. -/
def hunterHealHp (h : HunterHeal) (value : ℚ) (source : String) :
    Except String HunterHeal :=
  let eff := min value (h.max_hp - h.hp)
  let h1 := { h with hp := h.hp + eff }
  match source with
  | "regen" => Except.ok { h1 with total_regen := h1.total_regen + eff }
  | "steal" => Except.ok { h1 with total_lifesteal := h1.total_lifesteal + eff }
  | "loth" => Except.ok { h1 with total_loth := h1.total_loth + eff }
  | "potion" => Except.ok { h1 with total_potion := h1.total_potion + eff }
  | _ => Except.error ("Unknown heal source: " ++ source)

/-- Hunter fields touched by `Hunter.on_kill` (`hunters.py` lines 264-280).
The base loot comes from `compute_loot()` and is passed in; `luckyRoll` is
the `random() < effect_chance` draw of the Call Me Lucky Loot talent. -/
structure LootState where
  current_stage : ℕ
  call_me_lucky_loot : ℕ
  attraction_node_3 : ℕ
  total_effect_procs : ℕ
  total_loot : ℚ
  loot_common : ℚ
  loot_uncommon : ℚ
  loot_rare : ℚ
deriving DecidableEq

/-- Method `Hunter.on_kill`: the lucky-loot proc (never on boss stages, requiring a
nonzero talent level) multiplies the loot by `1 + level * 0.2`, the
attraction gem multiplies by `1 + 0.25 * gem`, and the result is added to
`total_loot` and split 0.379 / 0.357 / 0.264 over the three pools. -/
def on_kill (st : LootState) (lootBase : ℚ) (luckyRoll : Bool) : LootState :=
  let isLucky : Bool :=
    decide (st.current_stage % 100 ≠ 0 ∧ 0 < st.current_stage) && luckyRoll &&
      decide (st.call_me_lucky_loot ≠ 0)
  let loot1 := if isLucky then lootBase * (1 + (st.call_me_lucky_loot : ℚ) * 0.2)
    else lootBase
  let procs := if isLucky then st.total_effect_procs + 1 else st.total_effect_procs
  let loot := loot1 * (1 + 0.25 * (st.attraction_node_3 : ℚ))
  { st with
    total_effect_procs := procs
    total_loot := st.total_loot + loot
    loot_common := st.loot_common + loot * 0.379
    loot_uncommon := st.loot_uncommon + loot * 0.357
    loot_rare := st.loot_rare + loot * 0.264 }

/-- A sequence of kills, each with its base loot and lucky-roll outcome. -/
def runKills (st : LootState) (ks : List (ℚ × Bool)) : LootState :=
  ks.foldl (fun s k => on_kill s k.1 k.2) st

/-- Claim C8 counterexample: an enemy at 10 hp with no damage reduction receiving
a non-evaded 20-damage hit ends the `receive_damage` call with its stored
`hp` field at -10, strictly negative — the code clamps hp nowhere. -/
theorem receive_damage_negative_hp :
    (enemyReceiveDamage ⟨10, 10, 0⟩ 20 false).hp = -10 ∧
      (enemyReceiveDamage ⟨10, 10, 0⟩ 20 false).hp < 0 ∧
      (hunterReceiveDamage ⟨10, 100, 0, 0, 0, 0, 0, 0, 0⟩ 20 false).hp = -10 := by
  refine ⟨by norm_num [enemyReceiveDamage], by norm_num [enemyReceiveDamage], ?_⟩
  norm_num [hunterReceiveDamage]

lemma on_kill_pools_nonneg (st : LootState) (lootBase : ℚ) (luckyRoll : Bool)
    (hl : 0 ≤ lootBase) (h1 : 0 ≤ st.total_loot) (h2 : 0 ≤ st.loot_common)
    (h3 : 0 ≤ st.loot_uncommon) (h4 : 0 ≤ st.loot_rare) :
    0 ≤ (on_kill st lootBase luckyRoll).total_loot ∧
      0 ≤ (on_kill st lootBase luckyRoll).loot_common ∧
      0 ≤ (on_kill st lootBase luckyRoll).loot_uncommon ∧
      0 ≤ (on_kill st lootBase luckyRoll).loot_rare := by
  have hll : (0 : ℚ) ≤ (st.call_me_lucky_loot : ℚ) := Nat.cast_nonneg _
  have han : (0 : ℚ) ≤ (st.attraction_node_3 : ℚ) := Nat.cast_nonneg _
  have hloot1 : 0 ≤ (if (decide (st.current_stage % 100 ≠ 0 ∧ 0 < st.current_stage) &&
      luckyRoll && decide (st.call_me_lucky_loot ≠ 0) : Bool) then
        lootBase * (1 + (st.call_me_lucky_loot : ℚ) * 0.2) else lootBase) := by
    split
    · nlinarith
    · exact hl
  have hloot : 0 ≤ (if (decide (st.current_stage % 100 ≠ 0 ∧ 0 < st.current_stage) &&
      luckyRoll && decide (st.call_me_lucky_loot ≠ 0) : Bool) then
        lootBase * (1 + (st.call_me_lucky_loot : ℚ) * 0.2) else lootBase) *
      (1 + 0.25 * (st.attraction_node_3 : ℚ)) := by nlinarith
  simp only [on_kill]
  refine ⟨by nlinarith, by nlinarith, by nlinarith, by nlinarith⟩

/-- Claim C8 (amended): loot pools stay non-negative across kills (given
non-negative base loot) and kill counters are naturals; the hp stored by
`receive_damage` stays non-negative whenever the mitigated damage does not
exceed the current hp (and a hunter revive sets hp to exactly `0.8 *
max_hp`); but on a lethal hit with no revive charge left the stored hp is
exactly `hp - damage * (1 - damage_reduction)`, which is negative when the
mitigated damage strictly exceeds the current hp — hp non-negativity holds
only up to death, not after any `receive_damage` call. -/
theorem hp_nonneg_until_death_loot_nonneg :
    (∀ (e : EnemyCombat) (damage : ℚ) (evaded : Bool), 0 ≤ e.hp →
      damage * (1 - e.damage_reduction) ≤ e.hp →
      0 ≤ (enemyReceiveDamage e damage evaded).hp) ∧
    (∀ (h : HunterCombat) (damage : ℚ) (evaded : Bool), 0 ≤ h.hp → 0 ≤ h.max_hp →
      damage * (1 - h.damage_reduction) ≤ h.hp →
      0 ≤ (hunterReceiveDamage h damage evaded).hp) ∧
    (∀ (h : HunterCombat) (damage : ℚ),
      h.hp - damage * (1 - h.damage_reduction) ≤ 0 →
      h.times_revived < h.death_is_my_companion →
      (hunterReceiveDamage h damage false).hp = h.max_hp * 0.8) ∧
    (∀ (h : HunterCombat) (damage : ℚ),
      h.hp - damage * (1 - h.damage_reduction) ≤ 0 →
      ¬ h.times_revived < h.death_is_my_companion →
      (hunterReceiveDamage h damage false).hp = h.hp - damage * (1 - h.damage_reduction)) ∧
    (∀ (st : LootState) (lootBase : ℚ) (luckyRoll : Bool), 0 ≤ lootBase →
      0 ≤ st.total_loot → 0 ≤ st.loot_common → 0 ≤ st.loot_uncommon → 0 ≤ st.loot_rare →
      0 ≤ (on_kill st lootBase luckyRoll).total_loot ∧
        0 ≤ (on_kill st lootBase luckyRoll).loot_common ∧
        0 ≤ (on_kill st lootBase luckyRoll).loot_uncommon ∧
        0 ≤ (on_kill st lootBase luckyRoll).loot_rare) := by
  refine ⟨?_, ?_, ?_, ?_, on_kill_pools_nonneg⟩
  · intro e damage evaded h0 hm
    unfold enemyReceiveDamage
    split
    · exact h0
    · simp only []
      linarith
  · intro h damage evaded h0 hmax hm
    unfold hunterReceiveDamage
    split
    · exact h0
    · simp only []
      split
      · split
        · simp only []
          nlinarith
        · simp only []
          linarith
      · simp only []
        linarith
  · intro h damage hlethal hrev
    unfold hunterReceiveDamage
    rw [if_neg Bool.false_ne_true, if_pos (by simpa using hlethal), if_pos (by simpa using hrev)]
  · intro h damage hlethal hrev
    unfold hunterReceiveDamage
    rw [if_neg Bool.false_ne_true, if_pos (by simpa using hlethal), if_neg (by simpa using hrev)]

/-- Witness for C8 (amended): a surviving hit keeps hp at 5 ≥ 0; a lethal
hit on a hunter with one revive charge resets hp to 80; the loot pools stay
non-negative after a kill with base loot 2. -/
theorem hp_nonneg_until_death_loot_nonneg_witness :
    0 ≤ (enemyReceiveDamage ⟨10, 10, 0⟩ 5 false).hp ∧
      (hunterReceiveDamage ⟨10, 100, 0, 0, 1, 0, 0, 0, 0⟩ 20 false).hp = 80 ∧
      0 ≤ (on_kill ⟨5, 0, 0, 0, 0, 0, 0, 0⟩ 2 false).total_loot := by
  have h := hp_nonneg_until_death_loot_nonneg
  refine ⟨h.1 ⟨10, 10, 0⟩ 5 false (by norm_num) (by norm_num), ?_, ?_⟩
  · have h3 := h.2.2.1 ⟨10, 100, 0, 0, 1, 0, 0, 0, 0⟩ 20 (by norm_num) (by norm_num)
    rw [h3]
    norm_num
  · exact (h.2.2.2.2 ⟨5, 0, 0, 0, 0, 0, 0, 0⟩ 2 false (by norm_num) (by norm_num)
      (by norm_num) (by norm_num) (by norm_num)).1

lemma add_min_missing (hp value maxhp : ℚ) :
    hp + min value (maxhp - hp) = min (hp + value) maxhp := by
  rcases le_total value (maxhp - hp) with h | h
  · rw [min_eq_left h, min_eq_left (by linarith)]
  · rw [min_eq_right h, min_eq_right (by linarith)]
    ring

/-- Claim C9: for every `heal_hp(value, source)` call on an enemy or on a hunter
(with a recognised source tag) from a state with `0 ≤ hp ≤ max_hp` and
`value ≥ 0`, the effective heal is clamped to the missing hp, so the
post-call hp is exactly `min(hp + value, max_hp)` and in particular never
exceeds `max_hp`. -/
theorem heal_clamps_to_missing_hp :
    ∀ (e : EnemyCombat) (h : HunterHeal) (value : ℚ) (source : String),
      0 ≤ e.hp → e.hp ≤ e.max_hp → 0 ≤ h.hp → h.hp ≤ h.max_hp → 0 ≤ value →
      (enemyHealHp e value).hp = min (e.hp + value) e.max_hp ∧
      (enemyHealHp e value).hp ≤ e.max_hp ∧
      ∀ h2 : HunterHeal, hunterHealHp h value source = Except.ok h2 →
        h2.hp = min (h.hp + value) h.max_hp ∧ h2.hp ≤ h.max_hp := by
  intro e h value source _ _ _ _ _
  refine ⟨?_, ?_, ?_⟩
  · unfold enemyHealHp
    exact add_min_missing _ _ _
  · unfold enemyHealHp
    rw [add_min_missing]
    exact min_le_right _ _
  · intro h2 hok
    have hhp : h2.hp = h.hp + min value (h.max_hp - h.hp) := by
      unfold hunterHealHp at hok
      split at hok <;> first
        | (injection hok with hh
           rw [← hh])
        | exact absurd hok (by simp)
    rw [hhp, add_min_missing]
    exact ⟨rfl, min_le_right _ _⟩

/-- Witness for C9: an enemy at 5/10 hp healed for 100 lands exactly at the
10 hp cap, and a hunter at 5/10 hp healed for 3 via `regen` lands at 8. -/
theorem heal_clamps_to_missing_hp_witness :
    (enemyHealHp ⟨5, 10, 0⟩ 100).hp = 10 ∧
      ∀ h2 : HunterHeal, hunterHealHp ⟨5, 10, 0, 0, 0, 0⟩ 3 "regen" = Except.ok h2 →
        h2.hp = 8 := by
  have h := heal_clamps_to_missing_hp ⟨5, 10, 0⟩ ⟨5, 10, 0, 0, 0, 0⟩ 3 "regen"
    (by norm_num) (by norm_num) (by norm_num) (by norm_num) (by norm_num)
  have h100 := heal_clamps_to_missing_hp ⟨5, 10, 0⟩ ⟨5, 10, 0, 0, 0, 0⟩ 100 "regen"
    (by norm_num) (by norm_num) (by norm_num) (by norm_num) (by norm_num)
  constructor
  · rw [h100.1]
    norm_num
  · intro h2 hok
    have := (h.2.2 h2 hok).1
    rw [this]
    norm_num

/-- Claim C10: in every `on_kill` call the three per-pool increments sum exactly
to the `total_loot` increment (the split ratios 0.379 + 0.357 + 0.264 sum
to 1 exactly in rational arithmetic), so the invariant
`loot_common + loot_uncommon + loot_rare = total_loot` is preserved by every
kill and hence holds after any sequence of kills started from a state
satisfying it (in particular from the all-zero initial state). -/
theorem loot_pools_sum_to_total :
    ∀ (st : LootState) (lootBase : ℚ) (luckyRoll : Bool) (ks : List (ℚ × Bool)),
      ((on_kill st lootBase luckyRoll).loot_common - st.loot_common) +
        ((on_kill st lootBase luckyRoll).loot_uncommon - st.loot_uncommon) +
        ((on_kill st lootBase luckyRoll).loot_rare - st.loot_rare) =
        (on_kill st lootBase luckyRoll).total_loot - st.total_loot ∧
      (st.loot_common + st.loot_uncommon + st.loot_rare = st.total_loot →
        (runKills st ks).loot_common + (runKills st ks).loot_uncommon +
          (runKills st ks).loot_rare = (runKills st ks).total_loot) := by
  have hstep : ∀ (st : LootState) (lootBase : ℚ) (luckyRoll : Bool),
      st.loot_common + st.loot_uncommon + st.loot_rare = st.total_loot →
      (on_kill st lootBase luckyRoll).loot_common +
        (on_kill st lootBase luckyRoll).loot_uncommon +
        (on_kill st lootBase luckyRoll).loot_rare =
        (on_kill st lootBase luckyRoll).total_loot := by
    intro st lootBase luckyRoll hinv
    simp only [on_kill]
    ring_nf
    ring_nf at hinv
    linarith
  intro st lootBase luckyRoll ks
  constructor
  · simp only [on_kill]
    ring
  · intro hinv
    induction ks generalizing st with
    | nil => exact hinv
    | cons k rest ih => exact ih (on_kill st k.1 k.2) (hstep st k.1 k.2 hinv)

/-- Witness for C10: from the all-zero state, two kills with base loot 3
and 7 (no lucky procs) leave the three pools summing exactly to the total
loot. -/
theorem loot_pools_sum_to_total_witness :
    (runKills ⟨5, 0, 0, 0, 0, 0, 0, 0⟩ [(3, false), (7, false)]).loot_common +
      (runKills ⟨5, 0, 0, 0, 0, 0, 0, 0⟩ [(3, false), (7, false)]).loot_uncommon +
      (runKills ⟨5, 0, 0, 0, 0, 0, 0, 0⟩ [(3, false), (7, false)]).loot_rare =
      (runKills ⟨5, 0, 0, 0, 0, 0, 0, 0⟩ [(3, false), (7, false)]).total_loot :=
  (loot_pools_sum_to_total ⟨5, 0, 0, 0, 0, 0, 0, 0⟩ 1 false
    [(3, false), (7, false)]).2 (by norm_num)

end HunterSim
